import Mathlib

/-!
Verification of the sorting-strategy module
(`BehaviorPattern/StrategyDesignPattern/Problem_1_SortingStrategy/client.py`)
and of the parking-lot model (`RealWorldProblems/ParkingLot/parking.py`).

Lists model Python lists; in-place mutation becomes functional update.
Out-of-range reads are modelled with `List.getD _ _ 0`; every execution path
exercised by the theorems stays inside the bounds the Python code respects.
Money and timestamps are modelled with `ℚ` (the Python floats involved are
small multiples of 0.5, represented exactly).
-/

/-! ## Sorting strategies -/

variable {α : Type}

/-- Merge step of `MergeSortStrategy._merge_sort`: the two `while` loops that
write `left`/`right` back into `array`, comparing with `left[i] <= right[j]`
(`le`), followed by the two copy-remainder loops. -/
def mergeLists (le : α → α → Bool) : List α → List α → List α
  | [], ys => ys
  | x :: xs, [] => x :: xs
  | x :: xs, y :: ys =>
    if le x y then x :: mergeLists le xs (y :: ys)
    else y :: mergeLists le (x :: xs) ys
termination_by xs ys => xs.length + ys.length

/-- The recursion of `MergeSortStrategy._merge_sort`: when `len(array) > 1`,
split at `mid = n // 2` (`array[:mid]`, `array[mid:]`), sort both halves and
merge them back. -/
def mergeSortBy (le : α → α → Bool) (l : List α) : List α :=
  if 1 < l.length then
    mergeLists le (mergeSortBy le (l.take (l.length / 2)))
      (mergeSortBy le (l.drop (l.length / 2)))
  else l
termination_by l.length
decreasing_by
  · rw [List.length_take]; omega
  · rw [List.length_drop]; omega

/-- The integer instance: `MergeSortStrategy.sort` on a `List[int]`. -/
def merge_sort (array : List Int) : List Int :=
  mergeSortBy (fun a b => decide (a ≤ b)) array

/-- The merge-sort algorithm run on key/tag pairs, comparing keys exactly as
the source compares list elements (`left[i] <= right[j]` on the key).  Used to
express stability with tagged duplicate keys. -/
def merge_sort_tagged (array : List (Int × Nat)) : List (Int × Nat) :=
  mergeSortBy (fun a b => decide (a.1 ≤ b.1)) array

/-- In-place swap `array[i], array[j] = array[j], array[i]`
(`QuickSortStrategy._swap`, also the swap inside `BubbleSortStrategy.sort`). -/
def lswap (array : List Int) (i j : Nat) : List Int :=
  (array.set i (array.getD j 0)).set j (array.getD i 0)

/-- Inner loop of `BubbleSortStrategy.sort`: `for i in range(n)`, comparing
`array[i] > array[i+1]` and swapping, tracking the `swapped` flag. -/
def bubbleInner (array : List Int) (swapped : Bool) (i n : Nat) :
    List Int × Bool :=
  if i < n then
    if array.getD (i + 1) 0 < array.getD i 0 then
      bubbleInner (lswap array i (i + 1)) true (i + 1) n
    else
      bubbleInner array swapped (i + 1) n
  else (array, swapped)
termination_by n - i

/-- Outer loop of `BubbleSortStrategy.sort`:
`for n in reversed(range(len(array)))`, breaking as soon as a pass makes no
swap. -/
def bubbleLoop (array : List Int) : Nat → List Int
  | 0 => (bubbleInner array false 0 0).1
  | m + 1 =>
    let p := bubbleInner array false 0 (m + 1)
    if p.2 then bubbleLoop p.1 m else p.1

/-- `BubbleSortStrategy.sort`: the outer loop starts at `n = len(array) - 1`
(and does not run at all on an empty list). -/
def bubble_sort (array : List Int) : List Int :=
  match array.length with
  | 0 => array
  | n + 1 => bubbleLoop array n

/-- Loop of `QuickSortStrategy._partition`: `for j in range(low, high)`,
swapping `array[i], array[j]` after `i += 1` whenever `array[j] < pivot`.
`ip1` carries the Python value `i + 1` (so it stays a natural number even when
`low = 0` makes the Python `i` start at `-1`). -/
def partLoop (array : List Int) (pivot : Int) (ip1 j high : Nat) :
    List Int × Nat :=
  if j < high then
    if array.getD j 0 < pivot then
      partLoop (lswap array ip1 j) pivot (ip1 + 1) (j + 1) high
    else
      partLoop array pivot ip1 (j + 1) high
  else (array, ip1)
termination_by high - j

/-- `QuickSortStrategy._partition`: pivot is `array[high]`; after the loop it
swaps `array[i+1], array[high]` and returns `i + 1`. -/
def partitionStep (array : List Int) (low high : Nat) : List Int × Nat :=
  let pivot := array.getD high 0
  let p := partLoop array pivot low low high
  (lswap p.1 p.2 high, p.2)

theorem partLoop_snd_bounds (array : List Int) (pivot : Int)
    (ip1 j high : Nat) (h1 : ip1 ≤ j) (h2 : j ≤ high) :
    ip1 ≤ (partLoop array pivot ip1 j high).2 ∧
      (partLoop array pivot ip1 j high).2 ≤ high := by
  induction array, pivot, ip1, j, high using partLoop.induct with
  | case1 array pivot ip1 j high hj hcmp ih =>
    rw [partLoop, if_pos hj, if_pos hcmp]
    have := ih (by omega) (by omega)
    omega
  | case2 array pivot ip1 j high hj hcmp ih =>
    rw [partLoop, if_pos hj, if_neg hcmp]
    have := ih (by omega) (by omega)
    omega
  | case3 array pivot ip1 j high hj =>
    rw [partLoop, if_neg hj]
    omega

theorem partitionStep_snd_bounds (array : List Int) (low high : Nat)
    (h : low ≤ high) :
    low ≤ (partitionStep array low high).2 ∧
      (partitionStep array low high).2 ≤ high := by
  have := partLoop_snd_bounds array (array.getD high 0) low low high le_rfl h
  simpa [partitionStep] using this

/-- `QuickSortStrategy._quick_sort`: recurse on `(low, pi - 1)` and
`(pi + 1, high)` while `low < high`.  Natural-number subtraction mirrors the
Python behaviour: the only call where the Python `pi - 1` is negative is
`(0, -1)`, on which the guard `low < high` fails in either encoding. -/
def quick_sort_aux (array : List Int) (low high : Nat) : List Int :=
  if low < high then
    let p := partitionStep array low high
    quick_sort_aux (quick_sort_aux p.1 low (p.2 - 1)) (p.2 + 1) high
  else array
termination_by high - low
decreasing_by
  · have := partitionStep_snd_bounds array low high (by omega)
    omega
  · have := partitionStep_snd_bounds array low high (by omega)
    omega

/-- `QuickSortStrategy.sort`: `self._quick_sort(array, 0, n - 1)`. -/
def quick_sort (array : List Int) : List Int :=
  quick_sort_aux array 0 (array.length - 1)

/-! ## The sorting context (`SortingContext`) -/

/-- The three concrete `SortingStrategy` subclasses. -/
inductive StrategyKind
  | bubble
  | merge
  | quick
deriving DecidableEq

/-- Errors raised by `SortingContext`: `ValueError("A valid SortingStrategy
is required")` and `RuntimeError("No sorting strategy set")`. -/
inductive CtxError
  | valueError
  | runtimeError
deriving DecidableEq

/-- The `_sorting_strategy` attribute, declared `Optional[SortingStrategy]`.
An argument value of `none` models `None` or any other object rejected by
`isinstance(strategy, SortingStrategy)`. -/
structure SortingContext where
  sorting_strategy : Option StrategyKind
deriving DecidableEq

/-- `SortingContext.__init__(strategy=None)`. -/
def sortingContextInit (strategy : Option StrategyKind) :
    Except CtxError SortingContext :=
  match strategy with
  | none => Except.error CtxError.valueError
  | some s => Except.ok ⟨some s⟩

/-- `SortingContext.set_sorting_strategy`. -/
def set_sorting_strategy (ctx : SortingContext)
    (strategy : Option StrategyKind) : Except CtxError SortingContext :=
  match strategy with
  | none => Except.error CtxError.valueError
  | some s => Except.ok { ctx with sorting_strategy := some s }

/-- Dispatch of `self._sorting_strategy.sort(array)`. -/
def runStrategy : StrategyKind → List Int → List Int
  | StrategyKind.bubble, a => bubble_sort a
  | StrategyKind.merge, a => merge_sort a
  | StrategyKind.quick, a => quick_sort a

/-- `SortingContext.sort`: `if not self._sorting_strategy` raises the runtime
error (a strategy instance is always truthy, `None` is falsy). -/
def SortingContext.sort (ctx : SortingContext) (array : List Int) :
    Except CtxError (List Int) :=
  match ctx.sorting_strategy with
  | none => Except.error CtxError.runtimeError
  | some s => Except.ok (runStrategy s array)

/-- Contexts obtainable through the public interface: a successful
constructor call followed by any number of successful
`set_sorting_strategy` calls. -/
inductive ReachableCtx : SortingContext → Prop
  | init (strategy : Option StrategyKind) (ctx : SortingContext) :
      sortingContextInit strategy = Except.ok ctx → ReachableCtx ctx
  | set (ctx : SortingContext) (strategy : Option StrategyKind)
      (ctx' : SortingContext) : ReachableCtx ctx →
      set_sorting_strategy ctx strategy = Except.ok ctx' → ReachableCtx ctx'

/-! ## Parking lot data model (`parking.py`) -/

/-- The four `Vehicle` subclasses. -/
inductive VehicleType
  | car
  | van
  | truck
  | motorcycle
deriving DecidableEq

/-- The four `ParkingSpot` subclasses. -/
inductive SpotType
  | handicapped
  | compact
  | large
  | motorcycleSpot
deriving DecidableEq

/-- A `Vehicle`: subclass tag plus `_licenseNo`.  (The `ticket`
back-reference set by `assign_ticket` is not modelled; no claim reads it.) -/
structure Vehicle where
  typ : VehicleType
  licenseNo : Int
deriving DecidableEq

/-- A `ParkingSpot`: subclass tag, `_id`, `is_free`, `vehicle`. -/
structure ParkingSpot where
  id : Nat
  typ : SpotType
  is_free : Bool
  vehicle : Option Vehicle
deriving DecidableEq

/-- `ParkingSpot.__init__`: `is_free = True`, `vehicle = None`. -/
def mkParkingSpot (id : Nat) (typ : SpotType) : ParkingSpot :=
  ⟨id, typ, true, none⟩

/-- `assign_vehicle`, with the code shared by all four subclasses: succeeds
exactly on a free spot.  Returns the updated spot and the boolean result. -/
def assign_vehicle (s : ParkingSpot) (v : Vehicle) : ParkingSpot × Bool :=
  if s.is_free then ({ s with is_free := false, vehicle := some v }, true)
  else (s, false)

/-- `ParkingSpot.remove_vehicle`: `if not self.is_free and self.vehicle`. -/
def remove_vehicle (s : ParkingSpot) : ParkingSpot × Bool :=
  if s.is_free = false ∧ s.vehicle.isSome then
    ({ s with vehicle := none, is_free := true }, true)
  else (s, false)

/-- `TicketStatus` enumeration. -/
inductive TicketStatus
  | issued
  | inUse
  | paid
  | validated
  | cancelled
  | refunded
deriving DecidableEq

/-- `PaymentStatus` enumeration. -/
inductive PaymentStatus
  | completed
  | failed
  | pending
  | unpaid
  | refunded
deriving DecidableEq

/-- The two `Payment` subclasses. -/
inductive PaymentKind
  | cash
  | creditCard
deriving DecidableEq

/-- A `Payment`: subclass tag, amount, and status (`None` until a
transaction runs). -/
structure Payment where
  kind : PaymentKind
  amount : ℚ
  status : Option PaymentStatus
deriving DecidableEq

/-- `Cash.initiate_transaction` and `CreditCard.initiate_transaction`: both
set `PaymentStatus.COMPLETED` and return `True`. -/
def initiate_transaction (p : Payment) : Payment × Bool :=
  ({ p with status := some PaymentStatus.completed }, true)

/-- `ParkingRate.calculate(hours, vehicle, spot)`.  `hrs` transcribes
`int(-(-hours//1))` (ceiling); the `vehicle`/`spot` parameters are unused in
the source.  Hours and fees are `ℚ` (the floats involved are exact). -/
def ParkingRate.calculate (hours : ℚ) (_vehicle : Vehicle)
    (_spot : Option ParkingSpot) : ℚ :=
  let hrs : Int := -(⌊(0 - hours) / 1⌋)
  (if hrs ≥ 1 then (4 : ℚ) else 0) +
    (if hrs ≥ 2 then (7 / 2 : ℚ) else 0) +
    (if hrs ≥ 3 then (7 / 2 : ℚ) else 0) +
    (if hrs > 3 then ((hrs : ℚ) - 3) * (5 / 2) else 0)

/-- The fee schedule exactly as the specification words it: on `ceil(h)`
whole hours, a flat $4 for the first hour, $3.5 for each of the 2nd and 3rd
hours if applicable, and $2.5 per additional hour beyond the 3rd.  (A second
definition following the spec's words, for comparison with the transcribed
`ParkingRate.calculate`.) -/
def feeSchedule_spec (h : ℚ) : ℚ :=
  4 + (if 2 ≤ ⌈h⌉ then (7 / 2 : ℚ) else 0) +
    (if 3 ≤ ⌈h⌉ then (7 / 2 : ℚ) else 0) +
    (if 3 < ⌈h⌉ then ((⌈h⌉ : ℚ) - 3) * (5 / 2) else 0)

/-- A `ParkingTicket`.  Timestamps are in hours (`ℚ`); `payment` is set
nowhere in the source and stays `None`. -/
structure ParkingTicket where
  ticket_no : Nat
  slot_no : Nat
  vehicle : Vehicle
  entry_time : ℚ
  exit_time : Option ℚ
  amount : ℚ
  status : TicketStatus
  payment : Option PaymentKind
deriving DecidableEq

/-- `ParkingTicket.__init__`, given the current value of the class counter
`ParkingTicket.ticket_seed` and the entry timestamp `now`. -/
def mkTicket (seed : Nat) (slot_no : Nat) (vehicle : Vehicle) (now : ℚ) :
    ParkingTicket :=
  { ticket_no := seed, slot_no := slot_no, vehicle := vehicle,
    entry_time := now, exit_time := none, amount := 0,
    status := TicketStatus.issued, payment := none }

/-- The `ParkingLot` singleton state: `spots` and `tickets` dictionaries
(insertion-ordered association lists) together with the global counter
`ParkingTicket.ticket_seed`. -/
structure ParkingLot where
  spots : List ParkingSpot
  tickets : List (Nat × ParkingTicket)
  ticket_seed : Nat
deriving DecidableEq

/-- A fresh process: empty registries, `ParkingTicket.ticket_seed = 1000`,
after the given spots are registered. -/
def initState (spots : List ParkingSpot) : ParkingLot :=
  ⟨spots, [], 1000⟩

/-- `ParkingLot.can_fit`, transcribed with Python operator precedence
(`and` binds tighter than `or`, so line 2 reads
`Truck or (Van and Large)` and line 3 reads
`(Car and Compact) or Handicapped`). -/
def can_fit (vehicle : Vehicle) (spot : ParkingSpot) : Bool :=
  if vehicle.typ = VehicleType.motorcycle ∧
      spot.typ = SpotType.motorcycleSpot then true
  else if vehicle.typ = VehicleType.truck ∨
      (vehicle.typ = VehicleType.van ∧ spot.typ = SpotType.large) then true
  else if (vehicle.typ = VehicleType.car ∧ spot.typ = SpotType.compact) ∨
      spot.typ = SpotType.handicapped then true
  else false

/-- The compatibility policy as the specification states it (fixed table:
Motorcycle only in MotorcycleSpot; Car in Compact or Handicapped; Van and
Truck only in Large).  Stated for comparison with the transcribed
`can_fit`. -/
def spec_compat (v : VehicleType) (s : SpotType) : Bool :=
  match v, s with
  | VehicleType.motorcycle, SpotType.motorcycleSpot => true
  | VehicleType.car, SpotType.compact => true
  | VehicleType.car, SpotType.handicapped => true
  | VehicleType.van, SpotType.large => true
  | VehicleType.truck, SpotType.large => true
  | _, _ => false

/-- The scan inside `ParkingLot.park_vehicle`: first registered spot that is
free and fits, assigned in place. -/
def parkScan (vehicle : Vehicle) : List ParkingSpot →
    Option (List ParkingSpot × Nat)
  | [] => none
  | s :: rest =>
    if s.is_free ∧ can_fit vehicle s then
      some ((assign_vehicle s vehicle).1 :: rest, s.id)
    else
      match parkScan vehicle rest with
      | some (rest', sid) => some (s :: rest', sid)
      | none => none

/-- `ParkingLot.park_vehicle`: assign the first compatible free spot, build
a ticket from the global counter, record it, and return it; otherwise return
`None` with the state untouched. -/
def park_vehicle (lot : ParkingLot) (vehicle : Vehicle) (now : ℚ) :
    Option ParkingTicket × ParkingLot :=
  match parkScan vehicle lot.spots with
  | some (spots', sid) =>
    let t := mkTicket lot.ticket_seed sid vehicle now
    (some t,
      { spots := spots', tickets := lot.tickets ++ [(t.ticket_no, t)],
        ticket_seed := lot.ticket_seed + 1 })
  | none => (none, lot)

/-- `ParkingLot.get_spot`: `self.spots.get(id)`. -/
def get_spot (lot : ParkingLot) (id : Nat) : Option ParkingSpot :=
  lot.spots.find? (fun s => s.id = id)

/-- Update of the (unique-keyed) spot dictionary entry performed by
`free_slot` when the lookup succeeds. -/
def freeFirst : List ParkingSpot → Nat → List ParkingSpot
  | [], _ => []
  | s :: rest, i =>
    if s.id = i then (remove_vehicle s).1 :: rest else s :: freeFirst rest i

/-- `ParkingLot.free_slot`: `s = self.get_spot(id); if s: s.remove_vehicle()`. -/
def free_slot (lot : ParkingLot) (id : Nat) : ParkingLot :=
  { lot with spots := freeFirst lot.spots id }

/-- `Exit.validate_ticket`: stamp the exit time, compute the fee from the
elapsed hours, pick card payment iff the fee exceeds 10, run the
transaction, free the ticket's spot, and mark the ticket `PAID`.  The ticket
object is mutated in place in Python, so the registry entry under its key
shows the updated ticket. -/
def validate_ticket (lot : ParkingLot) (ticket : ParkingTicket) (now : ℚ) :
    ParkingLot × ParkingTicket × Payment :=
  let hrs := now - ticket.entry_time
  let fee := ParkingRate.calculate hrs ticket.vehicle
    (get_spot lot ticket.slot_no)
  let payment : Payment :=
    if fee > 10 then ⟨PaymentKind.creditCard, fee, none⟩
    else ⟨PaymentKind.cash, fee, none⟩
  let payment' := (initiate_transaction payment).1
  let lot' := free_slot lot ticket.slot_no
  let t' : ParkingTicket :=
    { ticket with
        exit_time := some now
        amount := fee
        status := TicketStatus.paid }
  let newTickets := lot'.tickets.map
    (fun p => if p.1 = ticket.ticket_no then (p.1, t') else p)
  let lot'' := { lot' with tickets := newTickets }
  (lot'', t', payment')

/-- A sequence of `park_vehicle` calls (vehicle and arrival time each),
collecting the successfully issued tickets in order. -/
def runParks (lot : ParkingLot) : List (Vehicle × ℚ) →
    List ParkingTicket × ParkingLot
  | [] => ([], lot)
  | (v, now) :: rest =>
    let r := park_vehicle lot v now
    let rest' := runParks r.2 rest
    (match r.1 with
     | some t => t :: rest'.1
     | none => rest'.1, rest'.2)

/-- The `occupied == (vehicle != null)` invariant of `ParkingSpot`
(`occupied` is `not is_free`). -/
def SpotInv (s : ParkingSpot) : Prop :=
  s.is_free = false ↔ s.vehicle.isSome = true

/-! ## Swap lemmas shared by bubble sort and quick sort -/

theorem lswap_length (l : List Int) (i j : Nat) :
    (lswap l i j).length = l.length := by
  simp [lswap]

theorem count_set_add (l : List Int) (i : Nat) (a x : Int)
    (h : i < l.length) :
    (l.set i a).count x + (if l[i] = x then 1 else 0) =
      l.count x + (if a = x then 1 else 0) := by
  rw [List.set_eq_take_cons_drop a h]
  conv_rhs => rw [← List.take_append_drop i l, List.drop_eq_getElem_cons h]
  simp only [List.count_append, List.count_cons, beq_iff_eq]
  split_ifs <;> omega

theorem lswap_perm (l : List Int) (i j : Nat) (hi : i < l.length)
    (hj : j < l.length) : (lswap l i j).Perm l := by
  rw [List.perm_iff_count]
  intro x
  have hj' : j < (l.set i (l.getD j 0)).length := by simpa using hj
  have e1 := count_set_add l i (l.getD j 0) x hi
  have e2 := count_set_add (l.set i (l.getD j 0)) j (l.getD i 0) x hj'
  have hv : (l.set i (l.getD j 0))[j] = if i = j then l.getD j 0 else l[j] :=
    List.getElem_set hj'
  have hdi : l.getD i 0 = l[i] := List.getD_eq_getElem l 0 hi
  have hdj : l.getD j 0 = l[j] := List.getD_eq_getElem l 0 hj
  rw [hv] at e2
  show ((l.set i (l.getD j 0)).set j (l.getD i 0)).count x = l.count x
  by_cases hij : i = j
  · subst hij
    rw [if_pos rfl] at e2
    simp only [hdi, hdj] at e1 e2 ⊢
    split_ifs at e1 e2 <;> omega
  · rw [if_neg hij] at e2
    simp only [hdi, hdj] at e1 e2 ⊢
    split_ifs at e1 e2 <;> omega

theorem lswap_getD_fst (l : List Int) (i j : Nat) (hi : i < l.length)
    (hj : j < l.length) : (lswap l i j).getD i 0 = l.getD j 0 := by
  have hlen : i < (lswap l i j).length := by rw [lswap_length]; exact hi
  rw [List.getD_eq_getElem _ 0 hlen, List.getD_eq_getElem l 0 hj]
  by_cases hij : i = j
  · subst hij
    show ((l.set i _).set i _)[i] = l[i]
    rw [List.getElem_set_self, List.getD_eq_getElem l 0 hi]
  · show ((l.set i _).set j _)[i] = l[j]
    rw [List.getElem_set_ne (Ne.symm hij), List.getElem_set_self,
      List.getD_eq_getElem l 0 hj]

theorem lswap_getD_snd (l : List Int) (i j : Nat) (_hi : i < l.length)
    (hj : j < l.length) : (lswap l i j).getD j 0 = l.getD i 0 := by
  have hlen : j < (lswap l i j).length := by rw [lswap_length]; exact hj
  rw [List.getD_eq_getElem _ 0 hlen]
  show ((l.set i _).set j _)[j] = l.getD i 0
  rw [List.getElem_set_self]

theorem lswap_getD_other (l : List Int) (i j k : Nat) (hki : k ≠ i)
    (hkj : k ≠ j) : (lswap l i j).getD k 0 = l.getD k 0 := by
  by_cases hk : k < l.length
  · have hlen : k < (lswap l i j).length := by rw [lswap_length]; exact hk
    rw [List.getD_eq_getElem _ 0 hlen, List.getD_eq_getElem l 0 hk]
    show ((l.set i _).set j _)[k] = l[k]
    rw [List.getElem_set_ne (Ne.symm hkj), List.getElem_set_ne (Ne.symm hki)]
  · rw [List.getD_eq_default _ 0 (by rw [lswap_length]; omega),
      List.getD_eq_default _ 0 (by omega)]

/-! ## Positional sortedness and segment-permutation helpers -/

/-- Non-decreasing order, stated positionally over `getD` reads. -/
def sortedLe (l : List Int) : Prop :=
  ∀ i j, i < j → j < l.length → l.getD i 0 ≤ l.getD j 0

theorem sortedLe_iff (l : List Int) : sortedLe l ↔ l.Sorted (· ≤ ·) := by
  rw [List.Sorted, List.pairwise_iff_getElem]
  constructor
  · intro h i j hi hj hij
    have := h i j hij hj
    rwa [List.getD_eq_getElem _ 0 hi, List.getD_eq_getElem _ 0 hj] at this
  · intro h i j hij hj
    rw [List.getD_eq_getElem _ 0 (lt_trans hij hj),
      List.getD_eq_getElem _ 0 hj]
    exact h i j (lt_trans hij hj) hj hij

theorem getD_drop (l : List Int) (a k : Nat) :
    (l.drop a).getD k 0 = l.getD (a + k) 0 := by
  by_cases h : a + k < l.length
  · rw [List.getD_eq_getElem _ 0 (by rw [List.length_drop]; omega),
      List.getD_eq_getElem _ 0 h, List.getElem_drop]
  · rw [List.getD_eq_default _ 0 (by rw [List.length_drop]; omega),
      List.getD_eq_default _ 0 (by omega)]

theorem perm_take_of_drop_eq (l' l : List Int) (m : Nat)
    (hlen : l'.length = l.length) (hperm : l'.Perm l)
    (hdrop : ∀ k, m ≤ k → l'.getD k 0 = l.getD k 0) :
    (l'.take m).Perm (l.take m) := by
  have hdrop_eq : l'.drop m = l.drop m := by
    apply List.ext_getElem (by rw [List.length_drop, List.length_drop, hlen])
    intro k h1 h2
    have hk : m + k < l.length := by
      rw [List.length_drop] at h2; omega
    have e1 : (l'.drop m)[k] = l'.getD (m + k) 0 := by
      rw [List.getElem_drop, List.getD_eq_getElem _ 0 (by omega)]
    have e2 : (l.drop m)[k] = l.getD (m + k) 0 := by
      rw [List.getElem_drop, List.getD_eq_getElem _ 0 hk]
    rw [e1, e2, hdrop (m + k) (by omega)]
  have h := hperm
  rw [← List.take_append_drop m l', ← List.take_append_drop m l,
    hdrop_eq] at h
  exact (List.perm_append_right_iff _).mp h

theorem perm_drop_of_take_eq (l' l : List Int) (m : Nat)
    (hlen : l'.length = l.length) (hperm : l'.Perm l)
    (htake : ∀ k, k < m → l'.getD k 0 = l.getD k 0) :
    (l'.drop m).Perm (l.drop m) := by
  have htake_eq : l'.take m = l.take m := by
    apply List.ext_getElem (by rw [List.length_take, List.length_take, hlen])
    intro k h1 h2
    have hk : k < m := by rw [List.length_take] at h1; omega
    have hk2 : k < l.length := by rw [List.length_take] at h2; omega
    have e1 : (l'.take m)[k] = l'.getD k 0 := by
      rw [List.getElem_take, List.getD_eq_getElem _ 0 (by omega)]
    have e2 : (l.take m)[k] = l.getD k 0 := by
      rw [List.getElem_take, List.getD_eq_getElem _ 0 hk2]
    rw [e1, e2, htake k hk]
  have h := hperm
  rw [← List.take_append_drop m l', ← List.take_append_drop m l,
    htake_eq] at h
  exact (List.perm_append_left_iff _).mp h

/-- Values inside a region whose complement is untouched are drawn from the
original values of that region. -/
theorem seg_value_mem (l' l : List Int) (a b : Nat)
    (hlen : l'.length = l.length) (hperm : l'.Perm l)
    (hout : ∀ k, k < a ∨ b < k → l'.getD k 0 = l.getD k 0)
    (j : Nat) (haj : a ≤ j) (hjb : j ≤ b) (hjl : j < l.length) :
    ∃ j', a ≤ j' ∧ j' ≤ b ∧ j' < l.length ∧ l'.getD j 0 = l.getD j' 0 := by
  have hd : (l'.drop a).Perm (l.drop a) :=
    perm_drop_of_take_eq l' l a hlen hperm
      (fun k hk => hout k (Or.inl hk))
  have hdl : (l'.drop a).length = (l.drop a).length := by
    rw [List.length_drop, List.length_drop, hlen]
  have ht : ((l'.drop a).take (b + 1 - a)).Perm ((l.drop a).take (b + 1 - a)) := by
    apply perm_take_of_drop_eq _ _ _ hdl hd
    intro k hk
    rw [getD_drop, getD_drop]
    exact hout (a + k) (Or.inr (by omega))
  have hjd : j - a < (l'.drop a).length := by
    rw [List.length_drop, hlen]; omega
  have hjt : j - a < ((l'.drop a).take (b + 1 - a)).length := by
    rw [List.length_take]; omega
  have hval : ((l'.drop a).take (b + 1 - a))[j - a] = l'.getD j 0 := by
    rw [List.getElem_take, ← List.getD_eq_getElem (l'.drop a) 0 hjd,
      getD_drop]
    congr 1
    omega
  have hmem : l'.getD j 0 ∈ (l.drop a).take (b + 1 - a) := by
    rw [← hval] at *
    exact ht.mem_iff.mp (List.getElem_mem hjt)
  rcases List.mem_iff_getElem.mp hmem with ⟨idx, hidx, hidxv⟩
  have hidx' : idx < b + 1 - a ∧ idx < l.length - a := by
    rw [List.length_take, List.length_drop] at hidx
    omega
  refine ⟨a + idx, by omega, by omega, by omega, ?_⟩
  rw [← hidxv, List.getElem_take, ← getD_drop, List.getD_eq_getElem _ 0
    (by rw [List.length_drop]; omega)]

/-! ## Bubble sort lemmas -/

theorem bubbleInner_length (array : List Int) (swapped : Bool) (i n : Nat) :
    (bubbleInner array swapped i n).1.length = array.length := by
  induction array, swapped, i, n using bubbleInner.induct with
  | case1 array swapped i n hin hlt ih =>
    rw [bubbleInner, if_pos hin, if_pos hlt]
    rw [ih, lswap_length]
  | case2 array swapped i n hin hlt ih =>
    rw [bubbleInner, if_pos hin, if_neg hlt]
    exact ih
  | case3 array swapped i n hin =>
    rw [bubbleInner, if_neg hin]

theorem bubbleInner_perm :
    ∀ (array : List Int) (swapped : Bool) (i n : Nat), n < array.length →
      (bubbleInner array swapped i n).1.Perm array := by
  intro array swapped i n
  induction array, swapped, i, n using bubbleInner.induct with
  | case1 array swapped i n hin hlt ih =>
    intro hn
    rw [bubbleInner, if_pos hin, if_pos hlt]
    have hn' : n < (lswap array i (i + 1)).length := by
      rw [lswap_length]; exact hn
    exact (ih hn').trans
      (lswap_perm array i (i + 1) (by omega) (by omega))
  | case2 array swapped i n hin hlt ih =>
    intro hn
    rw [bubbleInner, if_pos hin, if_neg hlt]
    exact ih hn
  | case3 array swapped i n hin =>
    intro _
    rw [bubbleInner, if_neg hin]

theorem bubbleInner_frozen :
    ∀ (array : List Int) (swapped : Bool) (i n : Nat) (k : Nat),
      k < i ∨ n < k →
      (bubbleInner array swapped i n).1.getD k 0 = array.getD k 0 := by
  intro array swapped i n
  induction array, swapped, i, n using bubbleInner.induct with
  | case1 array swapped i n hin hlt ih =>
    intro k hk
    rw [bubbleInner, if_pos hin, if_pos hlt]
    rw [ih k (by omega), lswap_getD_other array i (i + 1) k
      (by omega) (by omega)]
  | case2 array swapped i n hin hlt ih =>
    intro k hk
    rw [bubbleInner, if_pos hin, if_neg hlt]
    exact ih k (by omega)
  | case3 array swapped i n hin =>
    intro k _
    rw [bubbleInner, if_neg hin]

theorem bubbleInner_last_ge :
    ∀ (array : List Int) (swapped : Bool) (i n : Nat),
      n < array.length → i ≤ n →
      array.getD i 0 ≤ (bubbleInner array swapped i n).1.getD n 0 := by
  intro array swapped i n
  induction array, swapped, i, n using bubbleInner.induct with
  | case1 array swapped i n hin hlt ih =>
    intro hn _
    rw [bubbleInner, if_pos hin, if_pos hlt]
    have hn' : n < (lswap array i (i + 1)).length := by
      rw [lswap_length]; exact hn
    have h := ih hn' (by omega)
    rwa [lswap_getD_snd array i (i + 1) (by omega) (by omega)] at h
  | case2 array swapped i n hin hlt ih =>
    intro hn _
    rw [bubbleInner, if_pos hin, if_neg hlt]
    have h := ih hn (by omega)
    omega
  | case3 array swapped i n hin =>
    intro _ hin'
    rw [bubbleInner, if_neg hin]
    have : i = n := by omega
    rw [this]

theorem bubbleInner_le_last :
    ∀ (array : List Int) (swapped : Bool) (i n : Nat),
      n < array.length → ∀ k, i ≤ k → k ≤ n →
      (bubbleInner array swapped i n).1.getD k 0 ≤
        (bubbleInner array swapped i n).1.getD n 0 := by
  intro array swapped i n
  induction array, swapped, i, n using bubbleInner.induct with
  | case1 array swapped i n hin hlt ih =>
    intro hn k hik hkn
    rw [bubbleInner, if_pos hin, if_pos hlt]
    have hn' : n < (lswap array i (i + 1)).length := by
      rw [lswap_length]; exact hn
    by_cases hk : i + 1 ≤ k
    · exact ih hn' k hk hkn
    · have hki : k = i := by omega
      subst hki
      rw [bubbleInner_frozen _ true (k + 1) n k (by omega)]
      rw [lswap_getD_fst array k (k + 1) (by omega) (by omega)]
      have h := bubbleInner_last_ge (lswap array k (k + 1)) true (k + 1) n
        hn' (by omega)
      rw [lswap_getD_snd array k (k + 1) (by omega) (by omega)] at h
      omega
  | case2 array swapped i n hin hlt ih =>
    intro hn k hik hkn
    rw [bubbleInner, if_pos hin, if_neg hlt]
    by_cases hk : i + 1 ≤ k
    · exact ih hn k hk hkn
    · have hki : k = i := by omega
      subst hki
      rw [bubbleInner_frozen array swapped (k + 1) n k (by omega)]
      have h := bubbleInner_last_ge array swapped (k + 1) n hn (by omega)
      omega
  | case3 array swapped i n hin =>
    intro _ k hik hkn
    rw [bubbleInner, if_neg hin]
    have : k = n := by omega
    rw [this]

theorem bubbleInner_swapped_mono :
    ∀ (array : List Int) (swapped : Bool) (i n : Nat), swapped = true →
      (bubbleInner array swapped i n).2 = true := by
  intro array swapped i n
  induction array, swapped, i, n using bubbleInner.induct with
  | case1 array swapped i n hin hlt ih =>
    intro _
    rw [bubbleInner, if_pos hin, if_pos hlt]
    exact ih rfl
  | case2 array swapped i n hin hlt ih =>
    intro h
    rw [bubbleInner, if_pos hin, if_neg hlt]
    exact ih h
  | case3 array swapped i n hin =>
    intro h
    rw [bubbleInner, if_neg hin]
    exact h

theorem bubbleInner_no_swap :
    ∀ (array : List Int) (swapped : Bool) (i n : Nat),
      (bubbleInner array swapped i n).2 = false →
      (bubbleInner array swapped i n).1 = array ∧
        ∀ k, i ≤ k → k < n → array.getD k 0 ≤ array.getD (k + 1) 0 := by
  intro array swapped i n
  induction array, swapped, i, n using bubbleInner.induct with
  | case1 array swapped i n hin hlt ih =>
    intro h2
    rw [bubbleInner, if_pos hin, if_pos hlt] at h2
    rw [bubbleInner_swapped_mono _ true (i + 1) n rfl] at h2
    exact absurd h2 (by simp)
  | case2 array swapped i n hin hlt ih =>
    intro h2
    rw [bubbleInner, if_pos hin, if_neg hlt] at h2 ⊢
    rcases ih h2 with ⟨heq, hadj⟩
    refine ⟨heq, fun k hik hkn => ?_⟩
    by_cases hk : i + 1 ≤ k
    · exact hadj k hk hkn
    · have : k = i := by omega
      subst this
      omega
  | case3 array swapped i n hin =>
    intro _
    rw [bubbleInner, if_neg hin]
    exact ⟨rfl, fun k hik hkn => by omega⟩

theorem adj_pairwise (l : List Int) (m : Nat)
    (hadj : ∀ k, k < m → l.getD k 0 ≤ l.getD (k + 1) 0) :
    ∀ i j, i ≤ j → j ≤ m → l.getD i 0 ≤ l.getD j 0 := by
  intro i j
  induction j with
  | zero =>
    intro hij _
    have : i = 0 := by omega
    rw [this]
  | succ j' ih =>
    intro hij hjm
    by_cases hsame : i = j' + 1
    · rw [hsame]
    · exact le_trans (ih (by omega) (by omega)) (hadj j' (by omega))

theorem bubbleLoop_correct :
    ∀ (n : Nat) (array : List Int), n < array.length →
      (∀ k m, k < m → m < array.length → n < m →
        array.getD k 0 ≤ array.getD m 0) →
      sortedLe (bubbleLoop array n) ∧ (bubbleLoop array n).Perm array := by
  intro n
  induction n with
  | zero =>
    intro array hlen hinv
    have h0 : bubbleInner array false 0 0 = (array, false) := by
      rw [bubbleInner]; simp
    rw [bubbleLoop, h0]
    exact ⟨fun i j hij hjlen => hinv i j hij hjlen (by omega), List.Perm.refl _⟩
  | succ m ih =>
    intro array hlen hinv
    rw [bubbleLoop]
    by_cases hsw : (bubbleInner array false 0 (m + 1)).2 = true
    · rw [if_pos hsw]
      have hlen1 : (bubbleInner array false 0 (m + 1)).1.length =
          array.length := bubbleInner_length array false 0 (m + 1)
      have hperm1 : (bubbleInner array false 0 (m + 1)).1.Perm array :=
        bubbleInner_perm array false 0 (m + 1) hlen
      have hfro : ∀ k, m + 1 < k →
          (bubbleInner array false 0 (m + 1)).1.getD k 0 =
            array.getD k 0 :=
        fun k hk => bubbleInner_frozen array false 0 (m + 1) k (Or.inr hk)
      have hb5 := bubbleInner_le_last array false 0 (m + 1) hlen
      have hinv' : ∀ k j, k < j →
          j < (bubbleInner array false 0 (m + 1)).1.length → m < j →
          (bubbleInner array false 0 (m + 1)).1.getD k 0 ≤
            (bubbleInner array false 0 (m + 1)).1.getD j 0 := by
        intro k j hkj hjlen hmj
        rw [hlen1] at hjlen
        by_cases hj : j ≤ m + 1
        · have hj' : j = m + 1 := by omega
          subst hj'
          exact hb5 k (by omega) (by omega)
        · rw [hfro j (by omega)]
          by_cases hkm : k ≤ m + 1
          · rcases seg_value_mem _ array 0 (m + 1) hlen1 hperm1
              (fun k' hk' => hfro k' (by omega)) k (by omega) hkm
              (by omega) with ⟨k', _, hk'b, hk'l, hval⟩
            rw [hval]
            exact hinv k' j (by omega) hjlen (by omega)
          · rw [hfro k (by omega)]
            exact hinv k j hkj hjlen (by omega)
      rcases ih (bubbleInner array false 0 (m + 1)).1
        (by rw [hlen1]; omega) hinv' with ⟨hs, hpm⟩
      exact ⟨hs, hpm.trans hperm1⟩
    · rw [if_neg hsw]
      rcases bubbleInner_no_swap array false 0 (m + 1)
        (by simpa using hsw) with ⟨heq, hadj⟩
      rw [heq]
      refine ⟨fun i j hij hjlen => ?_, List.Perm.refl _⟩
      by_cases hj : j ≤ m + 1
      · exact adj_pairwise array (m + 1)
          (fun k hk => hadj k (by omega) hk) i j (by omega) hj
      · exact hinv i j hij hjlen (by omega)

theorem bubble_sort_correct (array : List Int) :
    sortedLe (bubble_sort array) ∧ (bubble_sort array).Perm array := by
  unfold bubble_sort
  split
  · next h0 =>
    exact ⟨fun i j hij hjlen => absurd hjlen (by omega), List.Perm.refl _⟩
  · next n heq =>
    exact bubbleLoop_correct n array (by omega)
      (fun k m hkm hmlen hnm => by omega)

/-! ## Quick sort lemmas -/

theorem partLoop_length (array : List Int) (pivot : Int) (ip1 j high : Nat) :
    (partLoop array pivot ip1 j high).1.length = array.length := by
  induction array, pivot, ip1, j, high using partLoop.induct with
  | case1 array pivot ip1 j high hj hcmp ih =>
    rw [partLoop, if_pos hj, if_pos hcmp, ih, lswap_length]
  | case2 array pivot ip1 j high hj hcmp ih =>
    rw [partLoop, if_pos hj, if_neg hcmp]
    exact ih
  | case3 array pivot ip1 j high hj =>
    rw [partLoop, if_neg hj]

theorem partLoop_perm :
    ∀ (array : List Int) (pivot : Int) (ip1 j high : Nat), ip1 ≤ j →
      high < array.length → (partLoop array pivot ip1 j high).1.Perm array := by
  intro array pivot ip1 j high
  induction array, pivot, ip1, j, high using partLoop.induct with
  | case1 array pivot ip1 j high hj hcmp ih =>
    intro hij hlen
    rw [partLoop, if_pos hj, if_pos hcmp]
    have hlen' : high < (lswap array ip1 j).length := by
      rw [lswap_length]; exact hlen
    exact (ih (by omega) hlen').trans
      (lswap_perm array ip1 j (by omega) (by omega))
  | case2 array pivot ip1 j high hj hcmp ih =>
    intro hij hlen
    rw [partLoop, if_pos hj, if_neg hcmp]
    exact ih (by omega) hlen
  | case3 array pivot ip1 j high hj =>
    intro _ _
    rw [partLoop, if_neg hj]

theorem partLoop_frozen :
    ∀ (array : List Int) (pivot : Int) (ip1 j high : Nat), ip1 ≤ j →
      ∀ k, k < ip1 ∨ high ≤ k →
      (partLoop array pivot ip1 j high).1.getD k 0 = array.getD k 0 := by
  intro array pivot ip1 j high
  induction array, pivot, ip1, j, high using partLoop.induct with
  | case1 array pivot ip1 j high hj hcmp ih =>
    intro hij k hk
    rw [partLoop, if_pos hj, if_pos hcmp]
    rw [ih (by omega) k (by omega),
      lswap_getD_other array ip1 j k (by omega) (by omega)]
  | case2 array pivot ip1 j high hj hcmp ih =>
    intro hij k hk
    rw [partLoop, if_pos hj, if_neg hcmp]
    exact ih (by omega) k hk
  | case3 array pivot ip1 j high hj =>
    intro _ k _
    rw [partLoop, if_neg hj]

theorem partLoop_smalls :
    ∀ (array : List Int) (pivot : Int) (ip1 j high : Nat), ip1 ≤ j →
      j ≤ high → high < array.length → ∀ low0, low0 ≤ ip1 →
      (∀ k, low0 ≤ k → k < ip1 → array.getD k 0 < pivot) →
      ∀ k, low0 ≤ k → k < (partLoop array pivot ip1 j high).2 →
      (partLoop array pivot ip1 j high).1.getD k 0 < pivot := by
  intro array pivot ip1 j high
  induction array, pivot, ip1, j, high using partLoop.induct with
  | case1 array pivot ip1 j high hj hcmp ih =>
    intro hij hjh hlen low0 hl0 hpre k hk1 hk2
    rw [partLoop, if_pos hj, if_pos hcmp] at hk2 ⊢
    have hlen' : high < (lswap array ip1 j).length := by
      rw [lswap_length]; exact hlen
    refine ih (by omega) (by omega) hlen' low0 (by omega) ?_ k hk1 hk2
    intro k' hk'1 hk'2
    by_cases hk'ip : k' = ip1
    · subst hk'ip
      rw [lswap_getD_fst array k' j (by omega) (by omega)]
      exact hcmp
    · rw [lswap_getD_other array ip1 j k' (by omega) (by omega)]
      exact hpre k' hk'1 (by omega)
  | case2 array pivot ip1 j high hj hcmp ih =>
    intro hij hjh hlen low0 hl0 hpre k hk1 hk2
    rw [partLoop, if_pos hj, if_neg hcmp] at hk2 ⊢
    exact ih (by omega) (by omega) hlen low0 hl0 hpre k hk1 hk2
  | case3 array pivot ip1 j high hj =>
    intro hij hjh hlen low0 hl0 hpre k hk1 hk2
    rw [partLoop, if_neg hj] at hk2 ⊢
    exact hpre k hk1 hk2

theorem partLoop_bigs :
    ∀ (array : List Int) (pivot : Int) (ip1 j high : Nat), ip1 ≤ j →
      j ≤ high → high < array.length →
      (∀ k, ip1 ≤ k → k < j → pivot ≤ array.getD k 0) →
      ∀ k, (partLoop array pivot ip1 j high).2 ≤ k → k < high →
      pivot ≤ (partLoop array pivot ip1 j high).1.getD k 0 := by
  intro array pivot ip1 j high
  induction array, pivot, ip1, j, high using partLoop.induct with
  | case1 array pivot ip1 j high hj hcmp ih =>
    intro hij hjh hlen hpre k hk1 hk2
    rw [partLoop, if_pos hj, if_pos hcmp] at hk1 ⊢
    have hlen' : high < (lswap array ip1 j).length := by
      rw [lswap_length]; exact hlen
    refine ih (by omega) (by omega) hlen' ?_ k hk1 hk2
    intro k' hk'1 hk'2
    by_cases hk'j : k' = j
    · subst hk'j
      rw [lswap_getD_snd array ip1 k' (by omega) (by omega)]
      exact hpre ip1 le_rfl (by omega)
    · rw [lswap_getD_other array ip1 j k' (by omega) (by omega)]
      exact hpre k' (by omega) (by omega)
  | case2 array pivot ip1 j high hj hcmp ih =>
    intro hij hjh hlen hpre k hk1 hk2
    rw [partLoop, if_pos hj, if_neg hcmp] at hk1 ⊢
    refine ih (by omega) (by omega) hlen ?_ k hk1 hk2
    intro k' hk'1 hk'2
    by_cases hk'j : k' = j
    · subst hk'j
      omega
    · exact hpre k' hk'1 (by omega)
  | case3 array pivot ip1 j high hj =>
    intro hij hjh hlen hpre k hk1 hk2
    rw [partLoop, if_neg hj] at hk1 ⊢
    exact hpre k hk1 (by omega)

theorem partitionStep_length (array : List Int) (low high : Nat) :
    (partitionStep array low high).1.length = array.length := by
  show (lswap _ _ _).length = _
  rw [lswap_length, partLoop_length]

theorem partitionStep_perm (array : List Int) (low high : Nat)
    (hlh : low ≤ high) (hlen : high < array.length) :
    (partitionStep array low high).1.Perm array := by
  have hb := partLoop_snd_bounds array (array.getD high 0) low low high
    le_rfl hlh
  have hpl := partLoop_length array (array.getD high 0) low low high
  show (lswap _ _ _).Perm _
  exact (lswap_perm _ _ _ (by omega) (by omega)).trans
    (partLoop_perm array (array.getD high 0) low low high le_rfl hlen)

theorem partitionStep_frozen (array : List Int) (low high : Nat)
    (hlh : low ≤ high) (k : Nat) (hk : k < low ∨ high < k) :
    (partitionStep array low high).1.getD k 0 = array.getD k 0 := by
  have hb := partLoop_snd_bounds array (array.getD high 0) low low high
    le_rfl hlh
  show (lswap _ _ _).getD k 0 = _
  rw [lswap_getD_other _ _ _ k (by omega) (by omega)]
  exact partLoop_frozen array (array.getD high 0) low low high le_rfl k
    (by omega)

theorem partitionStep_pivot (array : List Int) (low high : Nat)
    (hlh : low ≤ high) (hlen : high < array.length) :
    (partitionStep array low high).1.getD (partitionStep array low high).2 0 =
      array.getD high 0 := by
  have hb := partLoop_snd_bounds array (array.getD high 0) low low high
    le_rfl hlh
  have hpl := partLoop_length array (array.getD high 0) low low high
  simp only [partitionStep]
  rw [lswap_getD_fst _ _ _ (by omega) (by omega)]
  exact partLoop_frozen array (array.getD high 0) low low high le_rfl high
    (Or.inr le_rfl)

theorem partitionStep_smalls (array : List Int) (low high : Nat)
    (hlh : low ≤ high) (hlen : high < array.length) :
    ∀ k, low ≤ k → k < (partitionStep array low high).2 →
    (partitionStep array low high).1.getD k 0 < array.getD high 0 := by
  intro k hk1 hk2
  have hb := partLoop_snd_bounds array (array.getD high 0) low low high
    le_rfl hlh
  simp only [partitionStep] at hk2 ⊢
  rw [lswap_getD_other _ _ _ k (by omega) (by omega)]
  exact partLoop_smalls array (array.getD high 0) low low high le_rfl hlh
    hlen low le_rfl (fun k' _ h => by omega) k hk1 hk2

theorem partitionStep_bigs (array : List Int) (low high : Nat)
    (hlh : low ≤ high) (hlen : high < array.length) :
    ∀ k, (partitionStep array low high).2 < k → k ≤ high →
    array.getD high 0 ≤ (partitionStep array low high).1.getD k 0 := by
  intro k hk1 hk2
  have hb := partLoop_snd_bounds array (array.getD high 0) low low high
    le_rfl hlh
  have hpl := partLoop_length array (array.getD high 0) low low high
  simp only [partitionStep] at hk1 ⊢
  by_cases hkh : k = high
  · rw [hkh]
    rw [lswap_getD_snd _ _ _ (by omega) (by omega)]
    exact partLoop_bigs array (array.getD high 0) low low high le_rfl hlh
      hlen (fun k' h1 h2 => by omega) _ le_rfl (by omega)
  · rw [lswap_getD_other _ _ _ k (by omega) (by omega)]
    exact partLoop_bigs array (array.getD high 0) low low high le_rfl hlh
      hlen (fun k' h1 h2 => by omega) k (by omega) (by omega)

theorem quick_sort_aux_base (array : List Int) (low high : Nat)
    (h : high ≤ low) : quick_sort_aux array low high = array := by
  rw [quick_sort_aux, if_neg (by omega)]

theorem quick_sort_aux_spec :
    ∀ (array : List Int) (low high : Nat), high < array.length →
      (quick_sort_aux array low high).length = array.length ∧
      (quick_sort_aux array low high).Perm array ∧
      (∀ k, k < low ∨ high < k →
        (quick_sort_aux array low high).getD k 0 = array.getD k 0) ∧
      (∀ k m, low ≤ k → k < m → m ≤ high →
        (quick_sort_aux array low high).getD k 0 ≤
          (quick_sort_aux array low high).getD m 0) := by
  intro array low high
  induction array, low, high using quick_sort_aux.induct with
  | case2 array low high hlh =>
    intro _
    rw [quick_sort_aux, if_neg hlh]
    exact ⟨rfl, List.Perm.refl _, fun k _ => rfl,
      fun k m h1 h2 h3 => by omega⟩
  | case1 array low high hlh p ihp ihe iho =>
    intro hlen
    have hpeq : p = partitionStep array low high := rfl
    rw [hpeq] at iho
    clear ihp hpeq
    have hlh' : low ≤ high := le_of_lt hlh
    have hpib := partitionStep_snd_bounds array low high hlh'
    have hplen := partitionStep_length array low high
    have hprm := partitionStep_perm array low high hlh' hlen
    have hpfro := partitionStep_frozen array low high hlh'
    have hpv := partitionStep_pivot array low high hlh' hlen
    have hsm := partitionStep_smalls array low high hlh' hlen
    have hbg := partitionStep_bigs array low high hlh' hlen
    have hlen1 : (partitionStep array low high).2 - 1 <
        (partitionStep array low high).1.length := by
      rw [hplen]; omega
    obtain ⟨hl1, hp1, hf1, hs1⟩ := ihe hlen1
    have hlen2 : high <
        (quick_sort_aux (partitionStep array low high).1 low
          ((partitionStep array low high).2 - 1)).length := by
      rw [hl1, hplen]; exact hlen
    obtain ⟨hl2, hp2, hf2, hs2⟩ := iho hlen2
    rw [quick_sort_aux, if_pos hlh]
    show (quick_sort_aux (quick_sort_aux (partitionStep array low high).1 low
        ((partitionStep array low high).2 - 1))
        ((partitionStep array low high).2 + 1) high).length = _ ∧ _
    refine ⟨by rw [hl2, hl1, hplen], (hp2.trans hp1).trans hprm,
      fun k hk => ?_, ?_⟩
    · rw [hf2 k (by omega), hf1 k (by omega), hpfro k (by omega)]
    · -- sortedness of the segment [low, high]
      have hF2 : (quick_sort_aux (quick_sort_aux
          (partitionStep array low high).1 low
          ((partitionStep array low high).2 - 1))
          ((partitionStep array low high).2 + 1) high).getD
          (partitionStep array low high).2 0 = array.getD high 0 := by
        rw [hf2 _ (by omega)]
        by_cases hpi0 : (partitionStep array low high).2 = 0
        · rw [hpi0] at hpv ⊢
          rw [quick_sort_aux_base _ _ _ (by omega)]
          exact hpv
        · rw [hf1 _ (by omega)]
          exact hpv
      have hF1 : ∀ k, low ≤ k → k < (partitionStep array low high).2 →
          (quick_sort_aux (quick_sort_aux
            (partitionStep array low high).1 low
            ((partitionStep array low high).2 - 1))
            ((partitionStep array low high).2 + 1) high).getD k 0 <
            array.getD high 0 := by
        intro k hk1 hk2
        rw [hf2 k (by omega)]
        rcases seg_value_mem _ (partitionStep array low high).1 low
          ((partitionStep array low high).2 - 1) hl1 hp1 hf1 k hk1
          (by omega) (by rw [hplen]; omega)
          with ⟨k', hk'1, hk'2, hk'3, hval⟩
        rw [hval]
        exact hsm k' hk'1 (by omega)
      have hF3 : ∀ k, (partitionStep array low high).2 < k → k ≤ high →
          array.getD high 0 ≤ (quick_sort_aux (quick_sort_aux
            (partitionStep array low high).1 low
            ((partitionStep array low high).2 - 1))
            ((partitionStep array low high).2 + 1) high).getD k 0 := by
        intro k hk1 hk2
        rcases seg_value_mem _ (quick_sort_aux
            (partitionStep array low high).1 low
            ((partitionStep array low high).2 - 1))
            ((partitionStep array low high).2 + 1) high hl2 hp2 hf2 k
            (by omega) hk2 (by rw [hl1, hplen]; omega)
          with ⟨k', hk'1, hk'2, hk'3, hval⟩
        rw [hval, hf1 k' (by omega)]
        exact hbg k' (by omega) hk'2
      intro k m hk1 hkm hmh
      by_cases hkpi : k < (partitionStep array low high).2
      · by_cases hmpi : m < (partitionStep array low high).2
        · rw [hf2 k (by omega), hf2 m (by omega)]
          exact hs1 k m hk1 hkm (by omega)
        · by_cases hmeq : m = (partitionStep array low high).2
          · rw [hmeq, hF2]
            exact le_of_lt (hF1 k hk1 hkpi)
          · exact le_of_lt (lt_of_lt_of_le (hF1 k hk1 hkpi)
              (hF3 m (by omega) hmh))
      · by_cases hkeq : k = (partitionStep array low high).2
        · rw [hkeq, hF2]
          exact hF3 m (by omega) hmh
        · exact hs2 k m (by omega) hkm hmh

theorem quick_sort_correct (array : List Int) :
    sortedLe (quick_sort array) ∧ (quick_sort array).Perm array := by
  unfold quick_sort
  rcases Nat.eq_zero_or_pos array.length with h0 | hpos
  · rw [quick_sort_aux_base array 0 (array.length - 1) (by omega)]
    exact ⟨fun i j hij hjlen => by omega, List.Perm.refl _⟩
  · obtain ⟨hl, hp, _, hs⟩ :=
      quick_sort_aux_spec array 0 (array.length - 1) (by omega)
    refine ⟨fun i j hij hjlen => ?_, hp⟩
    rw [hl] at hjlen
    exact hs i j (by omega) hij (by omega)

theorem mergeLists_perm (le : α → α → Bool) (xs ys : List α) :
    (mergeLists le xs ys).Perm (xs ++ ys) := by
  induction xs, ys using mergeLists.induct le with
  | case1 ys => simp [mergeLists]
  | case2 x xs => simp [mergeLists]
  | case3 x xs y ys hle ih =>
    simp only [mergeLists, if_pos hle]
    exact ih.cons x
  | case4 x xs y ys hle ih =>
    simp only [mergeLists, if_neg hle]
    exact (ih.cons y).trans List.perm_middle.symm

theorem mergeLists_sorted (le : α → α → Bool)
    (htot : ∀ a b, le a b = true ∨ le b a = true)
    (htr : ∀ a b c, le a b = true → le b c = true → le a c = true)
    (xs ys : List α) (hxs : xs.Sorted (fun a b => le a b = true))
    (hys : ys.Sorted (fun a b => le a b = true)) :
    (mergeLists le xs ys).Sorted (fun a b => le a b = true) := by
  induction xs, ys using mergeLists.induct le with
  | case1 ys => simpa [mergeLists] using hys
  | case2 x xs => simpa [mergeLists] using hxs
  | case3 x xs y ys hle ih =>
    simp only [mergeLists, if_pos hle]
    rw [List.sorted_cons] at hxs ⊢
    refine ⟨fun b hb => ?_, ih hxs.2 hys⟩
    rcases List.mem_append.mp ((mergeLists_perm le xs (y :: ys)).mem_iff.mp hb)
      with hbx | hby
    · exact hxs.1 b hbx
    · rcases List.mem_cons.mp hby with rfl | hby'
      · exact hle
      · exact htr x y b hle ((List.sorted_cons.mp hys).1 b hby')
  | case4 x xs y ys hle ih =>
    simp only [mergeLists, if_neg hle]
    rw [List.sorted_cons] at hys ⊢
    have hyx : le y x = true := (htot x y).resolve_left (by simpa using hle)
    refine ⟨fun b hb => ?_, ih hxs hys.2⟩
    rcases List.mem_append.mp ((mergeLists_perm le (x :: xs) ys).mem_iff.mp hb)
      with hbx | hby
    · rcases List.mem_cons.mp hbx with rfl | hbx'
      · exact hyx
      · exact htr y x b hyx ((List.sorted_cons.mp hxs).1 b hbx')
    · exact hys.1 b hby

/-! ### Stability of the merge step (tagged keys) -/

theorem mergeLists_filter (le : α → α → Bool) (p : α → Bool)
    (hrefl : ∀ a, le a a = true)
    (hmono : ∀ x y a, le x y = false → p y = true → le x a = true →
      p a = false)
    (xs ys : List α) (hxs : xs.Sorted fun a b => le a b = true) :
    (mergeLists le xs ys).filter p = xs.filter p ++ ys.filter p := by
  induction xs, ys using mergeLists.induct le with
  | case1 ys => simp [mergeLists]
  | case2 x xs => simp [mergeLists]
  | case3 x xs y ys hle ih =>
    simp only [mergeLists, if_pos hle]
    rw [List.filter_cons, List.filter_cons]
    have ih' := ih (List.sorted_cons.mp hxs).2
    by_cases hpx : p x = true <;>
      simp [hpx, ih', Bool.of_not_eq_true, List.filter_cons]
  | case4 x xs y ys hle ih =>
    simp only [mergeLists, if_neg hle]
    have hf : le x y = false := by simpa using hle
    have ih' := ih hxs
    by_cases hpy : p y = true
    · have hnil : (x :: xs).filter p = [] := by
        rw [List.filter_eq_nil_iff]
        intro a ha
        rcases List.mem_cons.mp ha with rfl | ha'
        · simp [hmono a y a hf hpy (hrefl a)]
        · simp [hmono x y a hf hpy ((List.sorted_cons.mp hxs).1 a ha')]
      rw [hnil] at ih'
      simp [List.filter_cons, hpy, ih', hnil]
    · simp [List.filter_cons, hpy, ih']

theorem mergeSortBy_perm (le : α → α → Bool) (l : List α) :
    (mergeSortBy le l).Perm l := by
  induction l using mergeSortBy.induct le with
  | case1 l hlen ih1 ih2 =>
    rw [mergeSortBy, if_pos hlen]
    exact ((mergeLists_perm le _ _).trans (ih1.append ih2)).trans
      (by rw [List.take_append_drop])
  | case2 l hlen => rw [mergeSortBy, if_neg hlen]

theorem mergeSortBy_sorted (le : α → α → Bool)
    (htot : ∀ a b, le a b = true ∨ le b a = true)
    (htr : ∀ a b c, le a b = true → le b c = true → le a c = true)
    (l : List α) : (mergeSortBy le l).Sorted (fun a b => le a b = true) := by
  induction l using mergeSortBy.induct le with
  | case1 l hlen ih1 ih2 =>
    rw [mergeSortBy, if_pos hlen]
    exact mergeLists_sorted le htot htr _ _ ih1 ih2
  | case2 l hlen =>
    rw [mergeSortBy, if_neg hlen]
    match l, hlen with
    | [], _ => exact List.sorted_nil
    | [a], _ => exact List.sorted_singleton a
    | a :: b :: l, h =>
      exact absurd (by simp only [List.length_cons]; omega) h

theorem mergeSortBy_filter (le : α → α → Bool) (p : α → Bool)
    (htot : ∀ a b, le a b = true ∨ le b a = true)
    (htr : ∀ a b c, le a b = true → le b c = true → le a c = true)
    (hmono : ∀ x y a, le x y = false → p y = true → le x a = true →
      p a = false)
    (l : List α) : (mergeSortBy le l).filter p = l.filter p := by
  have hrefl : ∀ a, le a a = true := fun a => (htot a a).elim id id
  induction l using mergeSortBy.induct le with
  | case1 l hlen ih1 ih2 =>
    rw [mergeSortBy, if_pos hlen,
      mergeLists_filter le p hrefl hmono _ _
        (mergeSortBy_sorted le htot htr _),
      ih1, ih2, ← List.filter_append, List.take_append_drop]
  | case2 l hlen => rw [mergeSortBy, if_neg hlen]

/-! ## Claim theorems: sorting -/

theorem merge_sort_perm (array : List Int) : (merge_sort array).Perm array :=
  mergeSortBy_perm _ array

theorem merge_sort_sorted (array : List Int) :
    (merge_sort array).Sorted (· ≤ ·) := by
  have h := mergeSortBy_sorted (fun a b : Int => decide (a ≤ b))
    (fun a b => by simpa using le_total a b)
    (fun a b c h1 h2 => by
      simp only [decide_eq_true_eq] at h1 h2 ⊢
      omega) array
  exact h.imp (fun hab => of_decide_eq_true hab)

/-- C1: each of the three sorting strategies (`BubbleSortStrategy`,
`MergeSortStrategy`, `QuickSortStrategy`) returns its input list in
non-decreasing order with the multiset of elements preserved (a
permutation), and consequently all three agree on every input. -/
theorem sorting_strategies_correct (array : List Int) :
    (bubble_sort array).Sorted (· ≤ ·) ∧ (bubble_sort array).Perm array ∧
    (merge_sort array).Sorted (· ≤ ·) ∧ (merge_sort array).Perm array ∧
    (quick_sort array).Sorted (· ≤ ·) ∧ (quick_sort array).Perm array ∧
    merge_sort array = bubble_sort array ∧
    quick_sort array = bubble_sort array := by
  obtain ⟨hbs, hbp⟩ := bubble_sort_correct array
  obtain ⟨hqs, hqp⟩ := quick_sort_correct array
  rw [sortedLe_iff] at hbs hqs
  have hms := merge_sort_sorted array
  have hmp := merge_sort_perm array
  exact ⟨hbs, hbp, hms, hmp, hqs, hqp,
    List.eq_of_perm_of_sorted (hmp.trans hbp.symm) hms hbs,
    List.eq_of_perm_of_sorted (hqp.trans hbp.symm) hqs hbs⟩

/-- C9: merge sort is stable.  Running the source algorithm on key/tag pairs
ordered by key (ties taken from the left half, `left[i] <= right[j]`), the
subsequence of entries holding any fixed key is unchanged -- equal-keyed
elements keep their relative input order. -/
theorem merge_sort_stable (l : List (Int × Nat)) (k : Int) :
    (merge_sort_tagged l).filter (fun x => decide (x.1 = k)) =
      l.filter (fun x => decide (x.1 = k)) := by
  unfold merge_sort_tagged
  apply mergeSortBy_filter
  · intro a b
    simpa using le_total a.1 b.1
  · intro a b c h1 h2
    simp only [decide_eq_true_eq] at h1 h2 ⊢
    omega
  · intro x y a hxy hpy hxa
    simp only [decide_eq_false_iff_not, decide_eq_true_eq] at hxy hpy hxa ⊢
    omega

/-- C10: every context reachable through the public interface holds a real
strategy, because the constructor and `set_sorting_strategy` reject (with
`ValueError`) anything that is not a `SortingStrategy` instance; hence
`SortingContext.sort` never raises the `RuntimeError` (`"No sorting strategy
set"`) branch. -/
theorem sorting_context_no_runtime_error (ctx : SortingContext)
    (array : List Int) (h : ReachableCtx ctx) :
    sortingContextInit none = Except.error CtxError.valueError ∧
    set_sorting_strategy ctx none = Except.error CtxError.valueError ∧
    ctx.sort array ≠ Except.error CtxError.runtimeError ∧
    ∃ s, ctx.sorting_strategy = some s ∧
      ctx.sort array = Except.ok (runStrategy s array) := by
  have hsome : ∃ s, ctx.sorting_strategy = some s := by
    induction h with
    | init strategy ctx0 hok =>
      cases strategy with
      | none => exact absurd hok (by simp [sortingContextInit])
      | some s =>
        refine ⟨s, ?_⟩
        simp only [sortingContextInit] at hok
        cases hok
        rfl
    | set ctx0 strategy ctx' hre hok ih =>
      cases strategy with
      | none => exact absurd hok (by simp [set_sorting_strategy])
      | some s =>
        refine ⟨s, ?_⟩
        simp only [set_sorting_strategy] at hok
        cases hok
        rfl
  obtain ⟨s, hs⟩ := hsome
  refine ⟨rfl, rfl, ?_, s, hs, ?_⟩ <;>
    simp [SortingContext.sort, hs]

theorem sorting_context_no_runtime_error_witness :
    sortingContextInit none = Except.error CtxError.valueError ∧
    set_sorting_strategy ⟨some StrategyKind.bubble⟩ none =
      Except.error CtxError.valueError ∧
    SortingContext.sort ⟨some StrategyKind.bubble⟩ [3, 1] ≠
      Except.error CtxError.runtimeError ∧
    SortingContext.sort ⟨some StrategyKind.bubble⟩ [3, 1] =
      Except.ok (runStrategy StrategyKind.bubble [3, 1]) := by
  obtain ⟨h1, h2, h3, s, hs, hok⟩ :=
    sorting_context_no_runtime_error ⟨some StrategyKind.bubble⟩ [3, 1]
      (ReachableCtx.init (some StrategyKind.bubble) _ rfl)
  rw [show s = StrategyKind.bubble from (Option.some.inj hs).symm] at hok
  exact ⟨h1, h2, h3, hok⟩

/-! ## Claim theorems: parking compatibility and fees -/

/-- C2 (failing input): the transcribed `can_fit` accepts a Motorcycle in a
Handicapped spot (operator precedence makes line 3 read
`(Car and Compact) or Handicapped`), so `park_vehicle` called with a
Motorcycle when only a Handicapped spot is free parks it there and issues a
ticket, where the specified fixed policy requires an absent result. -/
theorem can_fit_motorcycle_handicapped_bug :
    can_fit ⟨VehicleType.motorcycle, 7⟩
        (mkParkingSpot 1 SpotType.handicapped) = true ∧
    spec_compat VehicleType.motorcycle SpotType.handicapped = false ∧
    (park_vehicle (initState [mkParkingSpot 1 SpotType.handicapped])
        ⟨VehicleType.motorcycle, 7⟩ 0).1 =
      some (mkTicket 1000 1 ⟨VehicleType.motorcycle, 7⟩ 0) ∧
    (park_vehicle (initState [mkParkingSpot 1 SpotType.handicapped])
        ⟨VehicleType.motorcycle, 7⟩ 0).2.spots =
      [⟨1, SpotType.handicapped, false, some ⟨VehicleType.motorcycle, 7⟩⟩] :=
  ⟨rfl, rfl, rfl, rfl⟩

theorem calculate_eq_feeSchedule_spec (hours : ℚ) (v : Vehicle)
    (s : Option ParkingSpot) (hpos : 0 < hours) :
    ParkingRate.calculate hours v s = feeSchedule_spec hours := by
  unfold ParkingRate.calculate feeSchedule_spec
  have hceil : -(⌊(0 - hours) / 1⌋) = ⌈hours⌉ := by
    rw [div_one, zero_sub, Int.floor_neg, neg_neg]
  simp only [hceil]
  have h0 : (0 : Int) < ⌈hours⌉ := Int.ceil_pos.mpr hpos
  rw [if_pos (show ⌈hours⌉ ≥ 1 by omega)]

/-- C3 (counterexample): at 3.5 elapsed hours the code charges
4 + 3.5 + 3.5 + 2.5 = $13.50, not the $11.50 the claim asserts. -/
theorem parking_rate_claim_false :
    ¬(ParkingRate.calculate (7 / 2) ⟨VehicleType.car, 0⟩ none = 23 / 2) := by
  intro h
  have hv : ParkingRate.calculate (7 / 2) ⟨VehicleType.car, 0⟩ none =
      27 / 2 := by
    norm_num [ParkingRate.calculate]
  rw [hv] at h
  norm_num at h

/-- C3 (amended): for positive elapsed hours the fee is computed on
`ceil(h)` whole hours as $4 for the first hour, $3.5 each for the 2nd and
3rd, and $2.5 per hour beyond the 3rd; in particular 0.5h and 1h cost $4,
1.5h costs $7.50, and 3.5h costs $13.50 (not $11.50). -/
theorem parking_rate_schedule (hours : ℚ) (v : Vehicle)
    (s : Option ParkingSpot) (hpos : 0 < hours) :
    ParkingRate.calculate hours v s = feeSchedule_spec hours ∧
    ParkingRate.calculate (1 / 2) v s = 4 ∧
    ParkingRate.calculate 1 v s = 4 ∧
    ParkingRate.calculate (3 / 2) v s = 15 / 2 ∧
    ParkingRate.calculate (7 / 2) v s = 27 / 2 :=
  ⟨calculate_eq_feeSchedule_spec hours v s hpos,
    by norm_num [ParkingRate.calculate],
    by norm_num [ParkingRate.calculate],
    by norm_num [ParkingRate.calculate],
    by norm_num [ParkingRate.calculate]⟩

theorem parking_rate_schedule_witness :
    (0 : ℚ) < 7 / 2 ∧
    (ParkingRate.calculate (7 / 2) ⟨VehicleType.car, 0⟩ none =
        feeSchedule_spec (7 / 2) ∧
      ParkingRate.calculate (1 / 2) ⟨VehicleType.car, 0⟩ none = 4 ∧
      ParkingRate.calculate 1 ⟨VehicleType.car, 0⟩ none = 4 ∧
      ParkingRate.calculate (3 / 2) ⟨VehicleType.car, 0⟩ none = 15 / 2 ∧
      ParkingRate.calculate (7 / 2) ⟨VehicleType.car, 0⟩ none = 27 / 2) :=
  ⟨by norm_num,
    parking_rate_schedule (7 / 2) ⟨VehicleType.car, 0⟩ none (by norm_num)⟩

/-! ## Claim theorems: parking operations -/

theorem parkScan_none (v : Vehicle) :
    ∀ l : List ParkingSpot,
      (∀ s ∈ l, ¬(s.is_free = true ∧ can_fit v s = true)) →
      parkScan v l = none := by
  intro l
  induction l with
  | nil => intro _; rfl
  | cons s rest ih =>
    intro h
    rw [parkScan, if_neg, ih (fun x hx => h x (List.mem_cons_of_mem s hx))]
    intro ⟨h1, h2⟩
    exact h s (List.mem_cons_self s rest) ⟨h1, h2⟩

/-- C4: when no registered spot is both free and accepted by `can_fit`,
`park_vehicle` returns `None` and the whole registry state (spots, ticket
registry, and the global ticket counter) is unchanged. -/
theorem park_vehicle_full_no_effect (lot : ParkingLot) (v : Vehicle)
    (now : ℚ)
    (h : ∀ s ∈ lot.spots, ¬(s.is_free = true ∧ can_fit v s = true)) :
    park_vehicle lot v now = (none, lot) := by
  unfold park_vehicle
  rw [parkScan_none v lot.spots h]

theorem park_vehicle_full_no_effect_witness :
    (∀ s ∈ (initState [mkParkingSpot 1 SpotType.compact]).spots,
      ¬(s.is_free = true ∧ can_fit ⟨VehicleType.motorcycle, 9⟩ s = true)) ∧
    park_vehicle (initState [mkParkingSpot 1 SpotType.compact])
        ⟨VehicleType.motorcycle, 9⟩ 0 =
      (none, initState [mkParkingSpot 1 SpotType.compact]) :=
  ⟨by decide, park_vehicle_full_no_effect _ _ 0 (by decide)⟩

theorem parkScan_inv (v : Vehicle) :
    ∀ (l : List ParkingSpot), (∀ x ∈ l, SpotInv x) →
      ∀ l' sid, parkScan v l = some (l', sid) → ∀ x ∈ l', SpotInv x := by
  intro l
  induction l with
  | nil => intro _ l' sid h; exact absurd h (by simp [parkScan])
  | cons s rest ih =>
    intro hinv l' sid hscan x hx
    rw [parkScan] at hscan
    by_cases hc : s.is_free = true ∧ can_fit v s = true
    · rw [if_pos hc] at hscan
      cases hscan
      rcases List.mem_cons.mp hx with rfl | hx'
      · unfold assign_vehicle
        rw [if_pos hc.1]
        simp [SpotInv]
      · exact hinv x (List.mem_cons_of_mem s hx')
    · rw [if_neg hc] at hscan
      rcases hrec : parkScan v rest with _ | ⟨rest', sid'⟩ <;>
        rw [hrec] at hscan
      · exact absurd hscan (by simp)
      · have hpair := Option.some.inj hscan
        have hl' : l' = s :: rest' := (congrArg Prod.fst hpair).symm
        subst hl'
        rcases List.mem_cons.mp hx with rfl | hx'
        · exact hinv x (List.mem_cons_self x rest)
        · exact ih (fun y hy => hinv y (List.mem_cons_of_mem s hy))
            rest' sid' hrec x hx'

theorem freeFirst_inv :
    ∀ (l : List ParkingSpot) (i : Nat), (∀ x ∈ l, SpotInv x) →
      ∀ x ∈ freeFirst l i, SpotInv x := by
  intro l i
  induction l with
  | nil => intro _ x hx; exact absurd hx (by simp [freeFirst])
  | cons s rest ih =>
    intro hinv x hx
    rw [freeFirst] at hx
    by_cases hid : s.id = i
    · rw [if_pos hid] at hx
      rcases List.mem_cons.mp hx with rfl | hx'
      · unfold remove_vehicle
        split_ifs with hc
        · simp [SpotInv]
        · exact hinv s (List.mem_cons_self s rest)
      · exact hinv x (List.mem_cons_of_mem s hx')
    · rw [if_neg hid] at hx
      rcases List.mem_cons.mp hx with rfl | hx'
      · exact hinv x (List.mem_cons_self x rest)
      · exact ih (fun y hy => hinv y (List.mem_cons_of_mem s hy)) x hx'

/-- C5: the invariant `occupied == (vehicle != null)` holds at construction
and is preserved by `assign_vehicle`, `remove_vehicle`, `park_vehicle`, and
`free_slot`. -/
theorem spot_occupied_iff_vehicle (id : Nat) (typ : SpotType)
    (s : ParkingSpot) (v : Vehicle) (lot : ParkingLot) (veh : Vehicle)
    (now : ℚ) (sid : Nat) (hs : SpotInv s)
    (hlot : ∀ x ∈ lot.spots, SpotInv x) :
    SpotInv (mkParkingSpot id typ) ∧
    SpotInv (assign_vehicle s v).1 ∧
    SpotInv (remove_vehicle s).1 ∧
    (∀ x ∈ (park_vehicle lot veh now).2.spots, SpotInv x) ∧
    (∀ x ∈ (free_slot lot sid).spots, SpotInv x) := by
  refine ⟨by simp [SpotInv, mkParkingSpot], ?_, ?_, ?_, ?_⟩
  · unfold assign_vehicle
    split_ifs with hf
    · simp [SpotInv]
    · exact hs
  · unfold remove_vehicle
    split_ifs with hf
    · simp [SpotInv]
    · exact hs
  · intro x hx
    unfold park_vehicle at hx
    rcases hscan : parkScan veh lot.spots with _ | ⟨spots', sid'⟩ <;>
      rw [hscan] at hx
    · exact hlot x hx
    · exact parkScan_inv veh lot.spots hlot spots' sid' hscan x hx
  · intro x hx
    exact freeFirst_inv lot.spots sid hlot x hx

theorem spot_occupied_iff_vehicle_witness :
    SpotInv ⟨2, SpotType.compact, false, some ⟨VehicleType.car, 3⟩⟩ ∧
    (∀ x ∈ (initState [mkParkingSpot 1 SpotType.compact]).spots,
      SpotInv x) ∧
    (SpotInv (mkParkingSpot 5 SpotType.large) ∧
      SpotInv (assign_vehicle
        ⟨2, SpotType.compact, false, some ⟨VehicleType.car, 3⟩⟩
        ⟨VehicleType.car, 4⟩).1 ∧
      SpotInv (remove_vehicle
        ⟨2, SpotType.compact, false, some ⟨VehicleType.car, 3⟩⟩).1 ∧
      (∀ x ∈ (park_vehicle (initState [mkParkingSpot 1 SpotType.compact])
          ⟨VehicleType.car, 4⟩ 0).2.spots, SpotInv x) ∧
      (∀ x ∈ (free_slot (initState [mkParkingSpot 1 SpotType.compact])
          1).spots, SpotInv x)) :=
  ⟨by simp [SpotInv],
    by
      intro x hx
      rcases List.mem_singleton.mp hx with rfl
      simp [SpotInv, mkParkingSpot],
    spot_occupied_iff_vehicle 5 SpotType.large
      ⟨2, SpotType.compact, false, some ⟨VehicleType.car, 3⟩⟩
      ⟨VehicleType.car, 4⟩ (initState [mkParkingSpot 1 SpotType.compact])
      ⟨VehicleType.car, 4⟩ 0 1 (by simp [SpotInv])
      (by
        intro x hx
        rcases List.mem_singleton.mp hx with rfl
        simp [SpotInv, mkParkingSpot])⟩

theorem freeFirst_id (i : Nat) :
    ∀ l : List ParkingSpot, (∀ s ∈ l, ¬(s.id = i)) → freeFirst l i = l := by
  intro l
  induction l with
  | nil => intro _; rfl
  | cons s rest ih =>
    intro h
    rw [freeFirst, if_neg (h s (List.mem_cons_self s rest)),
      ih (fun x hx => h x (List.mem_cons_of_mem s hx))]

theorem remove_vehicle_id (s : ParkingSpot) :
    (remove_vehicle s).1.id = s.id := by
  unfold remove_vehicle
  split_ifs <;> rfl

theorem remove_vehicle_typ (s : ParkingSpot) :
    (remove_vehicle s).1.typ = s.typ := by
  unfold remove_vehicle
  split_ifs <;> rfl

theorem remove_vehicle_clears (s : ParkingSpot) (hs : SpotInv s) :
    (remove_vehicle s).1.is_free = true ∧
      (remove_vehicle s).1.vehicle = none := by
  unfold remove_vehicle
  split_ifs with hc
  · exact ⟨rfl, rfl⟩
  · rcases Bool.eq_false_or_eq_true s.is_free with hb | hb
    · refine ⟨hb, ?_⟩
      rcases hv : s.vehicle with _ | v
      · rfl
      · exact absurd (hs.mpr (by rw [hv]; rfl)) (by rw [hb]; simp)
    · exact absurd ⟨hb, hs.mp hb⟩ hc

theorem find?_freeFirst (i : Nat) :
    ∀ l : List ParkingSpot, (∀ x ∈ l, SpotInv x) →
      ∀ s', (freeFirst l i).find? (fun s => s.id = i) = some s' →
      s'.is_free = true ∧ s'.vehicle = none := by
  intro l
  induction l with
  | nil => intro _ s' h; exact absurd h (by simp [freeFirst])
  | cons s rest ih =>
    intro hinv s' h
    by_cases hid : s.id = i
    · rw [freeFirst, if_pos hid,
        List.find?_cons_of_pos _ (by simp [remove_vehicle_id, hid])] at h
      have hs' := Option.some.inj h
      rw [← hs']
      exact remove_vehicle_clears s (hinv s (List.mem_cons_self s rest))
    · rw [freeFirst, if_neg hid,
        List.find?_cons_of_neg _ (by simp [hid])] at h
      exact ih (fun x hx => hinv x (List.mem_cons_of_mem s hx)) s' h

/-- C8: `free_slot` on a registered spot clears the occupant and marks the
spot free (the lookup then reports it free and empty); on an unknown id it
is a silent no-op returning the state unchanged; and after freeing, a
compatible vehicle can be parked on that same spot again. -/
theorem free_slot_spec (lot : ParkingLot) (i : Nat) (v : Vehicle) (now : ℚ)
    (hinv : ∀ x ∈ lot.spots, SpotInv x) :
    (∀ s', get_spot (free_slot lot i) i = some s' →
      s'.is_free = true ∧ s'.vehicle = none) ∧
    (get_spot lot i = none → free_slot lot i = lot) ∧
    (∀ s, lot.spots = [s] → s.id = i → can_fit v s = true →
      ∃ t, (park_vehicle (free_slot lot i) v now).1 = some t ∧
        t.slot_no = i) := by
  refine ⟨fun s' h => find?_freeFirst i lot.spots hinv s' h, ?_, ?_⟩
  · intro hnone
    have hids : ∀ s ∈ lot.spots, ¬(s.id = i) := by
      intro s hs
      have := List.find?_eq_none.mp hnone s hs
      simpa using this
    show { lot with spots := freeFirst lot.spots i } = lot
    rw [freeFirst_id i lot.spots hids]
  · intro s hspots hid hfit
    have hsinv := hinv s (by rw [hspots]; exact List.mem_cons_self s [])
    have hfs : (free_slot lot i).spots = [(remove_vehicle s).1] := by
      show freeFirst lot.spots i = _
      rw [hspots, freeFirst, if_pos hid]
    have hclear := remove_vehicle_clears s hsinv
    have hfit' : can_fit v (remove_vehicle s).1 = true := by
      unfold can_fit at hfit ⊢
      rw [remove_vehicle_typ]
      exact hfit
    have hscan : parkScan v (free_slot lot i).spots =
        some ([(assign_vehicle (remove_vehicle s).1 v).1],
          (remove_vehicle s).1.id) := by
      rw [hfs, parkScan, if_pos ⟨hclear.1, hfit'⟩]
    unfold park_vehicle
    rw [hscan]
    exact ⟨_, rfl, by rw [remove_vehicle_id, hid]; rfl⟩

theorem free_slot_spec_witness :
    ((⟨1, SpotType.compact, true, none⟩ : ParkingSpot).is_free = true ∧
      (⟨1, SpotType.compact, true, none⟩ : ParkingSpot).vehicle = none) ∧
    ((park_vehicle
        (free_slot
          ⟨[⟨1, SpotType.compact, false, some ⟨VehicleType.car, 3⟩⟩],
            [], 1001⟩ 1)
        ⟨VehicleType.car, 4⟩ 5).1.map ParkingTicket.slot_no = some 1) := by
  obtain ⟨h1, _h2, h3⟩ := free_slot_spec
    ⟨[⟨1, SpotType.compact, false, some ⟨VehicleType.car, 3⟩⟩], [], 1001⟩
    1 ⟨VehicleType.car, 4⟩ 5
    (by
      intro x hx
      rcases List.mem_singleton.mp hx with rfl
      simp [SpotInv])
  refine ⟨h1 _ rfl, ?_⟩
  obtain ⟨t, ht1, ht2⟩ := h3 _ rfl rfl rfl
  rw [ht1]
  simp [ht2]

theorem tickets_map_fst (tl : List (Nat × ParkingTicket)) (k : Nat)
    (t' : ParkingTicket) :
    (tl.map (fun p => if p.1 = k then (p.1, t') else p)).map Prod.fst =
      tl.map Prod.fst := by
  rw [List.map_map]
  apply List.map_congr_left
  intro p _
  by_cases h : p.1 = k <;> simp [h]

theorem validate_ticket_eq (lot : ParkingLot) (t : ParkingTicket)
    (now : ℚ) :
    validate_ticket lot t now =
      (⟨freeFirst lot.spots t.slot_no,
        lot.tickets.map (fun p => if p.1 = t.ticket_no then
          (p.1, { t with
                  exit_time := some now,
                  amount := ParkingRate.calculate (now - t.entry_time)
                    t.vehicle (get_spot lot t.slot_no),
                  status := TicketStatus.paid })
          else p),
        lot.ticket_seed⟩,
      { t with
        exit_time := some now,
        amount := ParkingRate.calculate (now - t.entry_time) t.vehicle
          (get_spot lot t.slot_no),
        status := TicketStatus.paid },
      ⟨if ParkingRate.calculate (now - t.entry_time) t.vehicle
          (get_spot lot t.slot_no) > 10
        then PaymentKind.creditCard else PaymentKind.cash,
        ParkingRate.calculate (now - t.entry_time) t.vehicle
          (get_spot lot t.slot_no),
        some PaymentStatus.completed⟩) := by
  simp only [validate_ticket]
  by_cases hc : ParkingRate.calculate (now - t.entry_time) t.vehicle
      (get_spot lot t.slot_no) > 10
  · rw [if_pos hc, if_pos hc]; rfl
  · rw [if_neg hc, if_neg hc]; rfl

/-- C7: for an issued, registered ticket, `Exit.validate_ticket` stamps the
exit time, sets the amount from the rate schedule on the elapsed hours,
pays by card iff the fee exceeds $10 (the payment always completing),
frees the spot recorded on the ticket, transitions the ticket from
`Issued` to `Paid`, and keeps the ticket registered under its key. -/
theorem validate_ticket_spec (lot : ParkingLot) (t : ParkingTicket)
    (now : ℚ) (_hstatus : t.status = TicketStatus.issued)
    (hinv : ∀ x ∈ lot.spots, SpotInv x)
    (hmem : (t.ticket_no, t) ∈ lot.tickets) :
    (validate_ticket lot t now).2.1.exit_time = some now ∧
    (validate_ticket lot t now).2.1.amount =
      ParkingRate.calculate (now - t.entry_time) t.vehicle
        (get_spot lot t.slot_no) ∧
    (validate_ticket lot t now).2.1.status = TicketStatus.paid ∧
    (validate_ticket lot t now).2.2.kind =
      (if ParkingRate.calculate (now - t.entry_time) t.vehicle
          (get_spot lot t.slot_no) > 10
        then PaymentKind.creditCard else PaymentKind.cash) ∧
    (validate_ticket lot t now).2.2.amount =
      ParkingRate.calculate (now - t.entry_time) t.vehicle
        (get_spot lot t.slot_no) ∧
    (validate_ticket lot t now).2.2.status = some PaymentStatus.completed ∧
    (∀ s', get_spot (validate_ticket lot t now).1 t.slot_no = some s' →
      s'.is_free = true ∧ s'.vehicle = none) ∧
    (validate_ticket lot t now).1.tickets.map Prod.fst =
      lot.tickets.map Prod.fst ∧
    (t.ticket_no, (validate_ticket lot t now).2.1) ∈
      (validate_ticket lot t now).1.tickets := by
  rw [validate_ticket_eq lot t now]
  refine ⟨rfl, rfl, rfl, rfl, rfl, rfl, ?_, ?_, ?_⟩
  · intro s' h
    exact find?_freeFirst t.slot_no lot.spots hinv s' h
  · exact tickets_map_fst lot.tickets t.ticket_no _
  · have := List.mem_map_of_mem
      (fun p : Nat × ParkingTicket => if p.1 = t.ticket_no then
        (p.1, { t with
                exit_time := some now,
                amount := ParkingRate.calculate (now - t.entry_time)
                  t.vehicle (get_spot lot t.slot_no),
                status := TicketStatus.paid })
        else p) hmem
    simpa using this

theorem validate_ticket_spec_witness :
    ((validate_ticket
        ⟨[⟨1, SpotType.compact, false, some ⟨VehicleType.car, 3⟩⟩],
          [(1000, mkTicket 1000 1 ⟨VehicleType.car, 3⟩ 0)], 1001⟩
        (mkTicket 1000 1 ⟨VehicleType.car, 3⟩ 0) 2).2.1.exit_time =
      some 2) ∧
    ((validate_ticket
        ⟨[⟨1, SpotType.compact, false, some ⟨VehicleType.car, 3⟩⟩],
          [(1000, mkTicket 1000 1 ⟨VehicleType.car, 3⟩ 0)], 1001⟩
        (mkTicket 1000 1 ⟨VehicleType.car, 3⟩ 0) 2).2.1.status =
      TicketStatus.paid) ∧
    ((validate_ticket
        ⟨[⟨1, SpotType.compact, false, some ⟨VehicleType.car, 3⟩⟩],
          [(1000, mkTicket 1000 1 ⟨VehicleType.car, 3⟩ 0)], 1001⟩
        (mkTicket 1000 1 ⟨VehicleType.car, 3⟩ 0) 2).2.2.status =
      some PaymentStatus.completed) ∧
    ((⟨1, SpotType.compact, true, none⟩ : ParkingSpot).is_free = true ∧
      (⟨1, SpotType.compact, true, none⟩ : ParkingSpot).vehicle = none) ∧
    ((validate_ticket
        ⟨[⟨1, SpotType.compact, false, some ⟨VehicleType.car, 3⟩⟩],
          [(1000, mkTicket 1000 1 ⟨VehicleType.car, 3⟩ 0)], 1001⟩
        (mkTicket 1000 1 ⟨VehicleType.car, 3⟩ 0) 2).1.tickets.map
          Prod.fst =
      [(1000, mkTicket 1000 1 ⟨VehicleType.car, 3⟩ 0)].map Prod.fst) := by
  obtain ⟨h1, _h2, h3, _h4, _h5, h6, h7, h8, _h9⟩ := validate_ticket_spec
    ⟨[⟨1, SpotType.compact, false, some ⟨VehicleType.car, 3⟩⟩],
      [(1000, mkTicket 1000 1 ⟨VehicleType.car, 3⟩ 0)], 1001⟩
    (mkTicket 1000 1 ⟨VehicleType.car, 3⟩ 0) 2 rfl
    (by
      intro x hx
      rcases List.mem_singleton.mp hx with rfl
      simp [SpotInv])
    (List.mem_singleton.mpr rfl)
  exact ⟨h1, h3, h6, h7 _ rfl, h8⟩

theorem range'_pairwise_lt : ∀ (n s : Nat),
    (List.range' s n).Pairwise (· < ·) := by
  intro n
  induction n with
  | zero => intro s; exact List.Pairwise.nil
  | succ m ih =>
    intro s
    rw [List.range'_succ]
    refine List.pairwise_cons.mpr ⟨fun m' hm' => ?_, ih (s + 1)⟩
    have := (List.mem_range'_1.mp hm').1
    omega

theorem runParks_ids : ∀ (reqs : List (Vehicle × ℚ)) (lot : ParkingLot),
    (runParks lot reqs).1.map ParkingTicket.ticket_no =
      List.range' lot.ticket_seed (runParks lot reqs).1.length := by
  intro reqs
  induction reqs with
  | nil => intro lot; rfl
  | cons r rest ih =>
    intro lot
    obtain ⟨v, now⟩ := r
    simp only [runParks]
    rcases hscan : parkScan v lot.spots with _ | ⟨spots', sid⟩
    · simp only [park_vehicle, hscan]
      exact ih lot
    · simp only [park_vehicle, hscan, List.map_cons, List.length_cons,
        List.range'_succ]
      refine congrArg (fun l => lot.ticket_seed :: l) ?_
      exact ih _
  
/-- C6: across any sequence of `park_vehicle` calls from a fresh state, the
ids of the successfully issued tickets are strictly increasing, and the
first ticket ever issued carries id 1000 (the class counter
`ParkingTicket.ticket_seed` starts at 1000 and advances by one per
ticket). -/
theorem ticket_ids_strictly_increasing (spots0 : List ParkingSpot)
    (reqs : List (Vehicle × ℚ)) :
    ((runParks (initState spots0) reqs).1.map
      ParkingTicket.ticket_no).Pairwise (· < ·) ∧
    ∀ t, (runParks (initState spots0) reqs).1.head? = some t →
      t.ticket_no = 1000 := by
  have hids := runParks_ids reqs (initState spots0)
  constructor
  · rw [hids]
    exact range'_pairwise_lt _ _
  · intro t ht
    have hh : ((runParks (initState spots0) reqs).1.map
        ParkingTicket.ticket_no).head? = some t.ticket_no := by
      rw [List.head?_map, ht]
      rfl
    rw [hids] at hh
    cases hlen : (runParks (initState spots0) reqs).1.length with
    | zero =>
      rw [hlen] at hh
      exact absurd hh (by simp [List.range'])
    | succ m =>
      rw [hlen, List.range'_succ] at hh
      have : (1000 : Nat) = t.ticket_no := Option.some.inj hh
      omega

theorem ticket_ids_strictly_increasing_witness :
    ((runParks (initState [mkParkingSpot 1 SpotType.compact,
        mkParkingSpot 2 SpotType.handicapped])
      [(⟨VehicleType.car, 1⟩, 0), (⟨VehicleType.car, 2⟩, 1)]).1.map
        ParkingTicket.ticket_no).Pairwise (· < ·) ∧
    (mkTicket 1000 1 ⟨VehicleType.car, 1⟩ 0).ticket_no = 1000 := by
  obtain ⟨h1, h2⟩ := ticket_ids_strictly_increasing
    [mkParkingSpot 1 SpotType.compact, mkParkingSpot 2 SpotType.handicapped]
    [(⟨VehicleType.car, 1⟩, 0), (⟨VehicleType.car, 2⟩, 1)]
  exact ⟨h1, h2 _ rfl⟩
